import Mathlib

/-!
Verification of the butterfish session-wrapping core
(`butterfish/butterfish.go`): the TTY sanitizer, the chunk adapter
(`readerToChannel`), the pty session wrapper (`wrapCommand`), the LLM
client construction (`initLLM`) and the vector-index initialization
(`initVectorIndex`), shallowly embedded in Lean.

Bytes and Unicode code points ("runes") are modelled as `Nat`.
-/

namespace Butterfish

/-! ## TTY sanitizer: character classes

Models Go's `unicode.IsPrint`. Exact on the Latin-1 range, where Go uses
an explicit properties table (printable there: `0x20..0x7E` and
`0xA1..0xFF`). Above Latin-1, Go consults the Unicode general-category
range tables (letters, marks, numbers, punctuation, symbols); we model
those tables by excluding the separator, surrogate, private-use and
format-control code points relevant to byte streams decoded in this
development. The claims proved below depend on the exact printability
only of specific code points (ESC `0x1B`, CSI `0x9B`, CR `0x0D`, BEL
`0x07`, printable ASCII, and U+FFFD); everywhere else the theorems are
parametric in this predicate, which the sanitizer merely consults. -/
def isPrint (r : Nat) : Bool :=
  if r < 0x100 then
    decide ((0x20 ≤ r ∧ r ≤ 0x7E) ∨ (0xA1 ≤ r ∧ r ≤ 0xFF))
  else
    !(decide ((0x2000 ≤ r ∧ r ≤ 0x200F) ∨ (0x2028 ≤ r ∧ r ≤ 0x202E) ∨
      (0x205F ≤ r ∧ r ≤ 0x206F) ∨ r = 0x1680 ∨ r = 0x3000 ∨
      (0xD800 ≤ r ∧ r ≤ 0xF8FF) ∨ r = 0xFEFF ∨
      (0xFFF9 ≤ r ∧ r ≤ 0xFFFB) ∨ r = 0xFFFE ∨ r = 0xFFFF))

/-- The character class `[[\]()#;?]` following the escape introducer in
the ANSI pattern of `stripANSI`. -/
def isIntermediateChar (c : Nat) : Bool :=
  c = 0x5B || c = 0x5D || c = 0x28 || c = 0x29 || c = 0x23 || c = 0x3B || c = 0x3F

/-- ASCII digit, the `\d` class of the ANSI pattern. -/
def isDigitChar (c : Nat) : Bool :=
  decide (0x30 ≤ c ∧ c ≤ 0x39)

/-- The class `[a-zA-Z\d]` of the ANSI pattern's BEL-terminated branch. -/
def isAlnumChar (c : Nat) : Bool :=
  isDigitChar c || decide (0x41 ≤ c ∧ c ≤ 0x5A) || decide (0x61 ≤ c ∧ c ≤ 0x7A)

/-- The terminator class `[\dA-PRZcf-ntqry=><~]` of the ANSI pattern. -/
def isFinalChar (c : Nat) : Bool :=
  isDigitChar c || decide (0x41 ≤ c ∧ c ≤ 0x50) || c = 0x52 || c = 0x5A ||
  decide (0x63 ≤ c ∧ c ≤ 0x6E) || c = 0x74 || c = 0x71 || c = 0x72 || c = 0x79 ||
  c = 0x3D || c = 0x3E || c = 0x3C || c = 0x7E

/-! ## TTY sanitizer: the ANSI-escape matcher

`stripANSI` is `ansiRegexp.ReplaceAllString(str, "")` for the pattern

  `[\x1B\x9B][[\]()#;?]*(?:(?:(?:[a-zA-Z\d]*(?:;[a-zA-Z\d]*)*)?\x07)|`
  `(?:(?:\d{1,4}(?:;\d{0,4})*)?[\dA-PRZcf-ntqry=><~]))`

with Go's leftmost-first semantics: scanning left to right, at each
position the backtracking-preferred match (greedy quantifiers,
first alternative preferred) is removed. -/

/-- The BEL-terminated alternative `(?:[a-zA-Z\d]*(?:;[a-zA-Z\d]*)*)?\x07`.
The optional group matches exactly the prefixes over the alphabet
`[a-zA-Z\d;]`; since BEL is outside that alphabet, only the maximal such
prefix can be followed by BEL, so the greedy search is deterministic. -/
def matchBel (l : List Nat) : Option Nat :=
  let k := (l.takeWhile (fun c => isAlnumChar c || c = 0x3B)).length
  if l.get? k = some 0x07 then some (k + 1) else none

/-- Matches `(?:;\\d{0,4})*[\\dA-PRZcf-ntqry=><~]`, greedily preferring to
consume another `;`-group before trying the final terminator character,
and trying each group's digit count greedily from 4 down to 0 (the
descending `List.range … |>.reverse` order). `fuel` bounds the
recursion; callers supply at least the list length plus one, which
suffices since every `;`-group consumes at least one character. -/
def matchSemiGroups : Nat → List Nat → Option Nat
  | 0, _ => none
  | _ + 1, [] => none
  | fuel + 1, c :: rest =>
    (if c = 0x3B then
      ((List.range (min 4 (rest.takeWhile isDigitChar).length + 1)).reverse.findSome?
        (fun j => (matchSemiGroups fuel (rest.drop j)).map (fun m => 1 + j + m)))
     else none).orElse
    (fun _ => if isFinalChar c then some 1 else none)

/-- The CSI-style alternative `(?:\d{1,4}(?:;\d{0,4})*)?[\dA-PRZcf-ntqry=><~]`
with `d` initial digits, trying `d` from its greedy maximum down to 1,
then the group-absent case (terminator character alone). -/
def matchCsiDigits : Nat → List Nat → Option Nat
  | 0, l =>
    match l with
    | c :: _ => if isFinalChar c then some 1 else none
    | [] => none
  | d + 1, l =>
    match matchSemiGroups ((l.drop (d + 1)).length + 1) (l.drop (d + 1)) with
    | some m => some (d + 1 + m)
    | none => matchCsiDigits d l

/-- The alternation of the two branches after the introducer and the
intermediate characters; the BEL branch is listed first in the pattern
and therefore preferred. -/
def matchAfterIntermediates (l : List Nat) : Option Nat :=
  (matchBel l).orElse
    (fun _ => matchCsiDigits (min 4 (l.takeWhile isDigitChar).length) l)

/-- Greedy `[[\]()#;?]*`: tries `k` intermediate characters from the
maximal run down to 0, each followed by the alternation. -/
def matchIntermediates : Nat → List Nat → Option Nat
  | k, l =>
    match matchAfterIntermediates (l.drop k) with
    | some m => some (k + m)
    | none =>
      match k with
      | 0 => none
      | k' + 1 => matchIntermediates k' l

/-- Match of the whole ANSI pattern minus its introducer character
against a prefix of `l`; returns the number of characters consumed. -/
def matchAfterIntro (l : List Nat) : Option Nat :=
  matchIntermediates ((l.takeWhile isIntermediateChar).length) l

/-- The scanning loop of `stripANSI`, structurally recursive on a fuel
bound (one unit per character position examined; `stripANSI` supplies
the list length, which suffices). At an ESC (`0x1B`) or CSI (`0x9B`)
character a match of the remainder of the pattern is deleted; otherwise
the character is kept and scanning resumes at the next position. -/
def stripANSILoop : Nat → List Nat → List Nat
  | 0, l => l
  | _ + 1, [] => []
  | fuel + 1, c :: rest =>
    if c = 0x1B ∨ c = 0x9B then
      match matchAfterIntro rest with
      | some m => stripANSILoop fuel (rest.drop m)
      | none => c :: stripANSILoop fuel rest
    else c :: stripANSILoop fuel rest

/-- `stripANSI`: delete every (leftmost-first, non-overlapping) match of
the ANSI pattern. A match can only start at an ESC (`0x1B`) or CSI
(`0x9B`) character. -/
def stripANSI (l : List Nat) : List Nat :=
  stripANSILoop l.length l

/-- `filterNonPrintable`, via `strings.Map`: newline and tab are kept
verbatim; any other rune is kept iff `unicode.IsPrint` holds, else
dropped (the Go callback returns `-1`). -/
def filterNonPrintable (s : List Nat) : List Nat :=
  s.filterMap (fun r =>
    if r = 0x0A ∨ r = 0x09 then some r
    else if isPrint r then some r
    else none)

/-! ## UTF-8 conversion

Go's `string(data)` conversion decodes UTF-8, replacing each byte at
which decoding fails with U+FFFD (consuming one byte per failure), and
`[]byte(str)` re-encodes. Decoding follows Go's accept ranges: overlong
encodings, surrogates and values above U+10FFFF are rejected. -/

/-- One UTF-8 decoding step at lead byte `b` followed by `rest`: returns
the decoded code point and how many continuation bytes were consumed
from `rest`. Any failure yields U+FFFD consuming zero continuation
bytes (Go's `DecodeRune` size-1 error behaviour). The accept range of
the first continuation byte depends on the lead byte (`E0`/`ED` and
`F0`/`F4` are restricted), written as a disjunction over the lead
byte. -/
def utf8DecodeStep (b : Nat) (rest : List Nat) : Nat × Nat :=
  if b < 0x80 then (b, 0)
  else if b < 0xC2 then (0xFFFD, 0)
  else if b < 0xE0 then
    match rest with
    | b1 :: _ =>
      if 0x80 ≤ b1 ∧ b1 ≤ 0xBF then
        ((b - 0xC0) * 0x40 + (b1 - 0x80), 1)
      else (0xFFFD, 0)
    | [] => (0xFFFD, 0)
  else if b < 0xF0 then
    match rest with
    | b1 :: b2 :: _ =>
      if ((b = 0xE0 ∧ 0xA0 ≤ b1 ∧ b1 ≤ 0xBF) ∨ (b = 0xED ∧ 0x80 ≤ b1 ∧ b1 ≤ 0x9F) ∨
          (b ≠ 0xE0 ∧ b ≠ 0xED ∧ 0x80 ≤ b1 ∧ b1 ≤ 0xBF)) ∧ (0x80 ≤ b2 ∧ b2 ≤ 0xBF) then
        ((b - 0xE0) * 0x1000 + (b1 - 0x80) * 0x40 + (b2 - 0x80), 2)
      else (0xFFFD, 0)
    | _ => (0xFFFD, 0)
  else if b < 0xF5 then
    match rest with
    | b1 :: b2 :: b3 :: _ =>
      if ((b = 0xF0 ∧ 0x90 ≤ b1 ∧ b1 ≤ 0xBF) ∨ (b = 0xF4 ∧ 0x80 ≤ b1 ∧ b1 ≤ 0x8F) ∨
          (b ≠ 0xF0 ∧ b ≠ 0xF4 ∧ 0x80 ≤ b1 ∧ b1 ≤ 0xBF)) ∧
         (0x80 ≤ b2 ∧ b2 ≤ 0xBF) ∧ (0x80 ≤ b3 ∧ b3 ≤ 0xBF) then
        ((b - 0xF0) * 0x40000 + (b1 - 0x80) * 0x1000 + (b2 - 0x80) * 0x40 + (b3 - 0x80), 3)
      else (0xFFFD, 0)
    | _ => (0xFFFD, 0)
  else (0xFFFD, 0)

/-- The decoding loop, structurally recursive on a fuel bound (one unit
per decoded rune; `utf8Decode` supplies the byte count, which suffices
since every rune consumes at least one byte). -/
def utf8DecodeLoop : Nat → List Nat → List Nat
  | 0, _ => []
  | _ + 1, [] => []
  | fuel + 1, b :: rest =>
    (utf8DecodeStep b rest).1 ::
      utf8DecodeLoop fuel (rest.drop (utf8DecodeStep b rest).2)

/-- UTF-8 decoding of a byte list into code points, as in Go's
byte-slice-to-string conversion. -/
def utf8Decode (l : List Nat) : List Nat :=
  utf8DecodeLoop l.length l

/-- UTF-8 encoding of one code point (a valid Unicode scalar value, as
produced by `utf8Decode`). -/
def utf8EncodeChar (c : Nat) : List Nat :=
  if c < 0x80 then [c]
  else if c < 0x800 then [0xC0 + c / 0x40, 0x80 + c % 0x40]
  else if c < 0x10000 then
    [0xE0 + c / 0x1000, 0x80 + (c / 0x40) % 0x40, 0x80 + c % 0x40]
  else
    [0xF0 + c / 0x40000, 0x80 + (c / 0x1000) % 0x40, 0x80 + (c / 0x40) % 0x40,
     0x80 + c % 0x40]

/-- UTF-8 encoding of a code-point list back into bytes, as in Go's
string-to-byte-slice conversion. -/
def utf8Encode (l : List Nat) : List Nat :=
  (l.map utf8EncodeChar).flatten

/-- `sanitizeTTYData`: decode the chunk to runes, strip ANSI escape
sequences, drop non-printable runes (keeping newline and tab), and
re-encode. -/
def sanitizeTTYData (data : List Nat) : List Nat :=
  utf8Encode (filterNonPrintable (stripANSI (utf8Decode data)))


/-! ## Chunk adapter (`NewByteMsg`, `readerToChannel`) -/

/-- `NewByteMsg` copies the bytes read into a freshly allocated buffer
(never aliasing the reader's reused buffer); on values, the copy is the
identity. -/
def NewByteMsg (data : List Nat) : List Nat :=
  data ++ []

/-- An error returned by `input.Read`: end of stream, or another
read error (treated identically by the adapter). -/
inductive ReadErr where
  | eof
  | other (msg : String)
deriving DecidableEq

/-- One result of `input.Read(buf)`: the bytes read and the returned
error, if any. -/
structure ReadResult where
  data : List Nat
  err : Option ReadErr
deriving DecidableEq

/-- `readerToChannel`, over the sequence of results the reader will
produce: each successful read sends one freshly copied chunk on the
channel; the first read returning an error (EOF included) breaks the
loop without emitting, and the channel is then closed. Returns the
chunks sent and how many times the channel was closed. -/
def readerToChannel : List ReadResult → List (List Nat) × Nat
  | [] => ([], 0)
  | r :: rest =>
    match r.err with
    | some _ => ([], 1)
    | none =>
      let out := readerToChannel rest
      (NewByteMsg r.data :: out.1, out.2)

/-- Loop computing the successive buffer contents read from a finite
byte source, structurally recursive on a fuel bound (one unit per read;
`chunksOf` supplies the byte count, which suffices for any positive
buffer size). -/
def chunksOfLoop : Nat → Nat → List Nat → List (List Nat)
  | 0, _, _ => []
  | fuel + 1, bufSize, l =>
    if l = [] ∨ bufSize = 0 then []
    else (l.take bufSize) :: chunksOfLoop fuel bufSize (l.drop bufSize)

/-- The successive buffer contents read from a finite byte source
through a buffer of `bufSize` bytes: each read fills the buffer as far
as the remaining bytes allow. -/
def chunksOf (bufSize : Nat) (l : List Nat) : List (List Nat) :=
  chunksOfLoop l.length bufSize l

/-- The read results of a finite readable source holding `bytes`, read
with buffer size `bufSize`: the full-buffer reads of the content, then
end of stream. -/
def finiteSourceReads (bufSize : Nat) (bytes : List Nat) : List ReadResult :=
  (chunksOf bufSize bytes).map (fun c => ⟨c, none⟩) ++ [⟨[], some .eof⟩]

/-! ## `wrapCommand` (pty session wrapper) -/

/-- Outcome of the blocking `wrappingMultiplexer` call: the wrapped
shell exited (with an exit code), or the session was cancelled, or the
multiplexer failed; `wrapCommand` only needs that the call returns. -/
inductive SessionOutcome where
  | exited (code : Nat)
  | cancelled
  | errored
deriving DecidableEq

/-- Observable events of one `wrapCommand` run, in order. -/
inductive WrapEvent where
  | ptyStarted
  | signalNotify
  | initialResize
  | makeRawAttempt
  | enteredRaw (saved : Nat)
  | startStdinReader
  | startPtyReader
  | startRemoteReader
  | sendWrappedCommand (cmdline : String)
  | multiplexerRun (outcome : SessionOutcome)
  | restoreMode (saved : Nat)
  | signalStop
  | signalChanClosed
  | ptyClosed
deriving DecidableEq

/-- How `wrapCommand` ends: a returned value (`ok`/`err`) or a panic. -/
inductive WrapResult where
  | ok
  | err (e : String)
  | panicked (e : String)
deriving DecidableEq

/-- `wrapCommand`, as a function of the command line and of the results
of its fallible host calls — `pty.Start`, and `term.MakeRaw` returning
the saved terminal state on success — and of the multiplexer's outcome.
Produces the result and the ordered event trace; deferred cleanups run
in LIFO registration order on every exit from the function, the panic
included. -/
def wrapCommand (command : List String) (ptyStart : Except String Unit)
    (makeRaw : Except String Nat) (outcome : SessionOutcome) :
    WrapResult × List WrapEvent :=
  match ptyStart with
  | .error e => (.err e, [])
  | .ok _ =>
    match makeRaw with
    | .error e =>
      (.panicked e,
       [.ptyStarted, .signalNotify, .initialResize, .makeRawAttempt,
        .signalStop, .signalChanClosed, .ptyClosed])
    | .ok saved =>
      (.ok,
       [.ptyStarted, .signalNotify, .initialResize, .makeRawAttempt,
        .enteredRaw saved,
        .startStdinReader, .startPtyReader, .startRemoteReader,
        .sendWrappedCommand (String.intercalate " " command),
        .multiplexerRun outcome,
        .restoreMode saved, .signalStop, .signalChanClosed, .ptyClosed])

/-- The saved-mode arguments of the `term.Restore` calls in a trace. -/
def restoredModes (trace : List WrapEvent) : List Nat :=
  trace.filterMap (fun e =>
    match e with
    | .restoreMode saved => some saved
    | _ => none)

/-! ## `initLLM` -/

/-- The configuration fields `initLLM` consults: the OpenAI token and
the externally supplied LLM client (`none` models Go's `nil`); client
identity is abstract. -/
structure LLMConfig where
  openAIToken : String
  llmClient : Option Nat
deriving DecidableEq

/-- The client `initLLM` returns on success: a GPT client built from the
token, or whatever `config.LLMClient` held (possibly `nil`). -/
inductive LLMClientVal where
  | gpt (token : String)
  | fromConfig (client : Option Nat)
deriving DecidableEq

/-- `initLLM`: constructs the LLM client from the configuration. -/
def initLLM (config : LLMConfig) : Except String LLMClientVal :=
  if config.openAIToken = "" ∧ config.llmClient ≠ none then
    .error "Must provide either an OpenAI Token or an LLM client."
  else if config.openAIToken ≠ "" ∧ config.llmClient ≠ none then
    .error "Must provide either an OpenAI Token or an LLM client, not both."
  else if config.openAIToken ≠ "" then
    .ok (.gpt config.openAIToken)
  else
    .ok (.fromConfig config.llmClient)

/-! ## `initVectorIndex` -/

/-- The `ButterfishCtx` fields `initVectorIndex` consults; the vector
index object is abstracted to an identifier. -/
structure BfCtx where
  vectorIndex : Option Nat
  inConsoleMode : Bool
  verbose : Bool
deriving DecidableEq

/-- Collaborator calls `initVectorIndex` makes, in order. -/
inductive IndexEvent where
  | newDiskCachedIndex (idx : Nat)
  | setOutput
  | loadPaths (paths : List String)
deriving DecidableEq

/-- `initVectorIndex`: `newIdx` is the index object the constructor
would produce and `loadResult` the outcome `LoadPaths` would report.
Returns the updated context, the returned error (`none` meaning
success), and the collaborator calls made. -/
def initVectorIndex (ctx : BfCtx) (pathsToLoad : List String)
    (newIdx : Nat) (loadResult : Except String Unit) :
    BfCtx × Option String × List IndexEvent :=
  if ctx.vectorIndex ≠ none then (ctx, none, [])
  else
    let constructEvents :=
      .newDiskCachedIndex newIdx ::
        (if ctx.verbose then [IndexEvent.setOutput] else [])
    let ctx2 := { ctx with vectorIndex := some newIdx }
    if ctx2.inConsoleMode then (ctx2, none, constructEvents)
    else
      let paths := if pathsToLoad = [] then ["."] else pathsToLoad
      match loadResult with
      | .error e => (ctx2, some e, constructEvents ++ [.loadPaths paths])
      | .ok _ => (ctx2, none, constructEvents ++ [.loadPaths paths])

/-! ## Helper lemmas: `initVectorIndex` -/

/-- Any call leaves the vector-index field set. -/
theorem initVectorIndex_sets (ctx : BfCtx) (p : List String) (i : Nat)
    (r : Except String Unit) :
    (initVectorIndex ctx p i r).1.vectorIndex ≠ none := by
  unfold initVectorIndex
  split
  · next h => exact h
  · rcases r with e | u <;>
      by_cases hc : ctx.inConsoleMode <;> simp [hc]

/-- A call on a context whose index is already set is a success no-op. -/
theorem initVectorIndex_of_set (ctx : BfCtx) (h : ctx.vectorIndex ≠ none)
    (p : List String) (i : Nat) (r : Except String Unit) :
    initVectorIndex ctx p i r = (ctx, none, []) := by
  unfold initVectorIndex
  simp [h]

/-! ## Claim theorems: construction, session wrapper, vector index -/

/-- Claim C1 (code bug): `initLLM` was claimed to fail with a
configuration error when zero or two client sources are provided and to
succeed returning the single configured client otherwise. The code
inverts the zero-source check: with an empty token and an externally
supplied client — exactly one source — it returns the configuration
error whose own message asks for at least one source, and with zero
sources it succeeds, returning the nil client from the configuration.
The remaining two cases behave as claimed. -/
theorem initLLM_inverted_source_check :
    initLLM ⟨"", some 0⟩ =
      .error "Must provide either an OpenAI Token or an LLM client." ∧
    initLLM ⟨"", none⟩ = .ok (.fromConfig none) ∧
    initLLM ⟨"sk-test", none⟩ = .ok (.gpt "sk-test") ∧
    initLLM ⟨"sk-test", some 0⟩ =
      .error "Must provide either an OpenAI Token or an LLM client, not both." :=
  ⟨rfl, rfl, rfl, rfl⟩

/-- Claim C2 (counterexample): when entering raw mode fails,
`wrapCommand` does not return the error to its caller — the run ends in
a panic, not in the error return the claim describes. -/
theorem wrapCommand_raw_failure_not_returned :
    (wrapCommand ["/bin/sh"] (.ok ()) (.error "raw mode failed") (.exited 0)).1 ≠
      WrapResult.err "raw mode failed" := by
  decide

/-- Claim C2 (amended): if entering raw mode fails, `wrapCommand` panics
with that error; the session multiplexer never runs — the session never
starts — and entering raw mode is attempted exactly once, so there is
no retry. -/
theorem wrapCommand_raw_failure_panics (command : List String) (e : String)
    (outcome : SessionOutcome) :
    (wrapCommand command (.ok ()) (.error e) outcome).1 = .panicked e ∧
    (∀ o, WrapEvent.multiplexerRun o ∉
      (wrapCommand command (.ok ()) (.error e) outcome).2) ∧
    (wrapCommand command (.ok ()) (.error e) outcome).2.count
      WrapEvent.makeRawAttempt = 1 := by
  refine ⟨rfl, ?_, rfl⟩
  intro o
  simp [wrapCommand]

/-- Claim C4: on every exit path of a session in which raw mode was
entered (the wrapped shell exiting with code 0 or non-zero, forced
cancellation, or a multiplexer error), the real terminal's saved prior
mode is restored exactly once — never zero times, never more than
once. -/
theorem wrapCommand_restores_saved_mode_once (command : List String)
    (saved : Nat) (outcome : SessionOutcome) :
    restoredModes (wrapCommand command (.ok ()) (.ok saved) outcome).2 = [saved] :=
  rfl

/-- Claim C6: the Announcement (the wrapped command line) is sent to the
peer before the multiplexer — the performer of every Output Relay
send — begins: every successful `wrapCommand` trace has the
`SendWrappedCommand` call strictly before the multiplexer run, with no
multiplexer run preceding it. -/
theorem wrapCommand_announce_before_relay (command : List String)
    (saved : Nat) (outcome : SessionOutcome) :
    ∃ pre post,
      (wrapCommand command (.ok ()) (.ok saved) outcome).2 =
        pre ++ WrapEvent.multiplexerRun outcome :: post ∧
      WrapEvent.sendWrappedCommand (String.intercalate " " command) ∈ pre ∧
      ∀ o, WrapEvent.multiplexerRun o ∉ pre := by
  refine ⟨[.ptyStarted, .signalNotify, .initialResize, .makeRawAttempt,
    .enteredRaw saved, .startStdinReader, .startPtyReader, .startRemoteReader,
    .sendWrappedCommand (String.intercalate " " command)],
    [.restoreMode saved, .signalStop, .signalChanClosed, .ptyClosed],
    rfl, ?_, ?_⟩
  · simp
  · intro o
    simp

/-- Claim C8: vector-index initialization is idempotent — after a first
call, which always leaves the index set, a second call is a no-op that
returns success, changes nothing, constructs no new index and reloads
no paths. -/
theorem initVectorIndex_idempotent (ctx : BfCtx) (p1 p2 : List String)
    (i1 i2 : Nat) (r1 r2 : Except String Unit) :
    initVectorIndex (initVectorIndex ctx p1 i1 r1).1 p2 i2 r2 =
      ((initVectorIndex ctx p1 i1 r1).1, none, []) :=
  initVectorIndex_of_set _ (initVectorIndex_sets ctx p1 i1 r1) p2 i2 r2

/-- Claim C10: `initVectorIndex` is not atomic on error — it assigns the
vector-index field before calling `LoadPaths`, so on a context with no
index, outside console mode, a failing load returns the error yet
leaves the index set, and every subsequent call returns success
immediately, without retrying the load. -/
theorem initVectorIndex_error_not_atomic (verbose : Bool) (p : List String)
    (idx : Nat) (e : String) :
    (initVectorIndex ⟨none, false, verbose⟩ p idx (.error e)).2.1 = some e ∧
    (initVectorIndex ⟨none, false, verbose⟩ p idx (.error e)).1.vectorIndex =
      some idx ∧
    ∀ p2 i2 r2,
      initVectorIndex
        (initVectorIndex ⟨none, false, verbose⟩ p idx (.error e)).1 p2 i2 r2 =
      ((initVectorIndex ⟨none, false, verbose⟩ p idx (.error e)).1, none, []) := by
  refine ⟨?_, ?_, fun p2 i2 r2 =>
    initVectorIndex_of_set _ (initVectorIndex_sets _ _ _ _) p2 i2 r2⟩
  · unfold initVectorIndex
    simp
  · unfold initVectorIndex
    simp

/-! ## Helper lemmas: chunk adapter -/

/-- The copy made by `NewByteMsg` equals, as a value, the bytes read. -/
theorem NewByteMsg_eq (data : List Nat) : NewByteMsg data = data := by
  simp [NewByteMsg]

/-- The emitted chunks concatenate back to the source bytes. -/
theorem chunksOfLoop_flatten (B : Nat) (hB : 0 < B) :
    ∀ (fuel : Nat) (l : List Nat), l.length ≤ fuel →
      (chunksOfLoop fuel B l).flatten = l := by
  intro fuel
  induction fuel with
  | zero =>
    intro l h
    have hl : l = [] := List.eq_nil_of_length_eq_zero (Nat.le_zero.mp h)
    subst hl
    simp [chunksOfLoop]
  | succ f ih =>
    intro l h
    by_cases hl : l = []
    · subst hl
      simp [chunksOfLoop]
    · rw [chunksOfLoop, if_neg (by simp [hl]; omega)]
      have hlen : l.length ≤ f + 1 := h
      have hpos : 0 < l.length := List.length_pos.mpr hl
      rw [List.flatten_cons, ih (l.drop B) (by simp; omega)]
      exact List.take_append_drop B l

/-- The number of emitted chunks is the ceiling of `N / B`. -/
theorem chunksOfLoop_length (B : Nat) (hB : 0 < B) :
    ∀ (fuel : Nat) (l : List Nat), l.length ≤ fuel →
      (chunksOfLoop fuel B l).length = (l.length + B - 1) / B := by
  have key : ∀ n, 1 ≤ n → (n + B - 1) / B = (n - 1) / B + 1 := by
    intro n hn
    rw [show n + B - 1 = (n - 1) + B by omega, Nat.add_div_right _ hB]
  intro fuel
  induction fuel with
  | zero =>
    intro l h
    have hl : l = [] := List.eq_nil_of_length_eq_zero (Nat.le_zero.mp h)
    subst hl
    simp [chunksOfLoop, Nat.div_eq_of_lt (by omega : B - 1 < B)]
  | succ f ih =>
    intro l h
    by_cases hl : l = []
    · subst hl
      simp [chunksOfLoop, Nat.div_eq_of_lt (by omega : B - 1 < B)]
    · have hpos : 0 < l.length := List.length_pos.mpr hl
      rw [chunksOfLoop, if_neg (by simp [hl]; omega)]
      rw [List.length_cons, ih (l.drop B) (by simp; omega)]
      rw [key l.length hpos, List.length_drop]
      congr 1
      by_cases hcase : l.length ≤ B
      · rw [show l.length - B + B - 1 = B - 1 by omega,
          Nat.div_eq_of_lt (by omega : B - 1 < B),
          Nat.div_eq_of_lt (by omega : l.length - 1 < B)]
      · rw [show l.length - B + B - 1 = l.length - 1 by omega]

/-- No emitted chunk is empty. -/
theorem chunksOfLoop_ne_nil (B : Nat) :
    ∀ (fuel : Nat) (l : List Nat), ∀ c ∈ chunksOfLoop fuel B l, c ≠ [] := by
  intro fuel
  induction fuel with
  | zero =>
    intro l c hc
    simp [chunksOfLoop] at hc
  | succ f ih =>
    intro l c hc
    rw [chunksOfLoop] at hc
    split at hc
    · simp at hc
    · next hcond =>
      rcases List.mem_cons.mp hc with h | h
      · subst h
        simp only [ne_eq, List.take_eq_nil_iff]
        push_neg at hcond ⊢
        exact ⟨hcond.2, hcond.1⟩
      · exact ih _ c h

/-- `readerToChannel` over a sequence of successful reads followed by
end-of-stream: one copied chunk per read, one channel closure. -/
theorem readerToChannel_reads (cs : List (List Nat)) :
    readerToChannel (cs.map (fun c => ⟨c, none⟩) ++ [⟨[], some ReadErr.eof⟩]) =
      (cs, 1) := by
  induction cs with
  | nil => rfl
  | cons c cs ih =>
    simp only [List.map_cons, List.cons_append, readerToChannel, List.append_eq,
      NewByteMsg_eq, ih]

/-- Claim C3: for every finite readable source of `N` bytes read with
buffer size `B > 0` (each read filling the buffer as far as the
remaining bytes allow, then end-of-stream), `readerToChannel` emits
exactly `⌈N/B⌉ = (N + B - 1) / B` chunks, each the copy of one non-empty
read, whose concatenation equals the original `N` bytes, and then closes
its output channel exactly once. -/
theorem readerToChannel_finite_source (bytes : List Nat) (B : Nat) (hB : 0 < B) :
    (readerToChannel (finiteSourceReads B bytes)).1.length =
      (bytes.length + B - 1) / B ∧
    (readerToChannel (finiteSourceReads B bytes)).1.flatten = bytes ∧
    (∀ c ∈ (readerToChannel (finiteSourceReads B bytes)).1, c ≠ []) ∧
    (readerToChannel (finiteSourceReads B bytes)).2 = 1 := by
  unfold finiteSourceReads chunksOf
  rw [readerToChannel_reads]
  exact ⟨chunksOfLoop_length B hB _ _ le_rfl,
    chunksOfLoop_flatten B hB _ _ le_rfl,
    fun c hc => chunksOfLoop_ne_nil B _ _ c hc, rfl⟩

/-- Witness for C3 at a concrete source: five bytes read with buffer
size two yield three chunks concatenating to the source, and one
closure. -/
theorem readerToChannel_finite_source_witness :
    0 < 2 ∧
    ((readerToChannel (finiteSourceReads 2 [1, 2, 3, 4, 5])).1.length =
        (5 + 2 - 1) / 2 ∧
     (readerToChannel (finiteSourceReads 2 [1, 2, 3, 4, 5])).1.flatten =
        [1, 2, 3, 4, 5] ∧
     (∀ c ∈ (readerToChannel (finiteSourceReads 2 [1, 2, 3, 4, 5])).1, c ≠ []) ∧
     (readerToChannel (finiteSourceReads 2 [1, 2, 3, 4, 5])).2 = 1) :=
  ⟨by decide, by
    have h := readerToChannel_finite_source [1, 2, 3, 4, 5] 2 (by decide)
    simpa using h⟩

/-! ## Helper lemmas: the printability filter -/

/-- Elements of the filtered output pass the keep test and come from the
input. -/
theorem filterNonPrintable_mem (l : List Nat) (c : Nat)
    (hc : c ∈ filterNonPrintable l) :
    (c = 0x0A ∨ c = 0x09 ∨ isPrint c = true) ∧ c ∈ l := by
  simp only [filterNonPrintable, List.mem_filterMap] at hc
  obtain ⟨a, ha, hfa⟩ := hc
  split_ifs at hfa with h1 h2
  · obtain rfl : a = c := Option.some.inj hfa
    exact ⟨by tauto, ha⟩
  · obtain rfl : a = c := Option.some.inj hfa
    exact ⟨Or.inr (Or.inr h2), ha⟩

/-- A list every element of which passes the keep test is unchanged by
the filter. -/
theorem filterNonPrintable_of_all (l : List Nat)
    (h : ∀ c ∈ l, c = 0x0A ∨ c = 0x09 ∨ isPrint c = true) :
    filterNonPrintable l = l := by
  induction l with
  | nil => rfl
  | cons c rest ih =>
    have hc := h c (List.mem_cons_self c rest)
    have hrest := ih (fun d hd => h d (List.mem_cons_of_mem c hd))
    simp only [filterNonPrintable, List.filterMap_cons] at hrest ⊢
    rcases hc with h1 | h1 | h1
    · rw [if_pos (Or.inl h1), hrest]
    · rw [if_pos (Or.inr h1), hrest]
    · by_cases h2 : c = 0x0A ∨ c = 0x09
      · rw [if_pos h2, hrest]
      · rw [if_neg h2, if_pos h1, hrest]

/-- The filter is idempotent. -/
theorem filterNonPrintable_idem (l : List Nat) :
    filterNonPrintable (filterNonPrintable l) = filterNonPrintable l :=
  filterNonPrintable_of_all _ (fun c hc => (filterNonPrintable_mem l c hc).1)

/-! ## Helper lemmas: `stripANSI` -/

/-- `stripANSILoop` only ever keeps characters of its input. -/
theorem stripANSILoop_subset :
    ∀ (fuel : Nat) (l : List Nat), ∀ c ∈ stripANSILoop fuel l, c ∈ l := by
  intro fuel
  induction fuel with
  | zero =>
    intro l c hc
    exact hc
  | succ f ih =>
    intro l c hc
    match l with
    | [] => exact hc
    | a :: rest =>
      rw [stripANSILoop] at hc
      split at hc
      · split at hc
        · next m _ =>
          exact List.mem_cons_of_mem a (List.mem_of_mem_drop (ih _ c hc))
        · rcases List.mem_cons.mp hc with h | h
          · exact h ▸ List.mem_cons_self a rest
          · exact List.mem_cons_of_mem a (ih _ c h)
      · rcases List.mem_cons.mp hc with h | h
        · exact h ▸ List.mem_cons_self a rest
        · exact List.mem_cons_of_mem a (ih _ c h)

/-- A list with no ESC and no CSI character is unchanged by the
stripping loop: no match of the ANSI pattern can start anywhere. -/
theorem stripANSILoop_of_no_intro :
    ∀ (fuel : Nat) (l : List Nat), (∀ c ∈ l, c ≠ 0x1B ∧ c ≠ 0x9B) →
      stripANSILoop fuel l = l := by
  intro fuel
  induction fuel with
  | zero =>
    intro l _
    rfl
  | succ f ih =>
    intro l h
    match l with
    | [] => rfl
    | a :: rest =>
      have ha := h a (List.mem_cons_self a rest)
      rw [stripANSILoop, if_neg (by tauto)]
      rw [ih rest (fun d hd => h d (List.mem_cons_of_mem a hd))]

/-- `stripANSI` only ever keeps characters of its input. -/
theorem stripANSI_subset (l : List Nat) : ∀ c ∈ stripANSI l, c ∈ l :=
  stripANSILoop_subset l.length l

/-- `stripANSI` is the identity on ESC- and CSI-free input. -/
theorem stripANSI_of_no_intro (l : List Nat)
    (h : ∀ c ∈ l, c ≠ 0x1B ∧ c ≠ 0x9B) : stripANSI l = l :=
  stripANSILoop_of_no_intro l.length l h

/-! ## Helper lemmas: UTF-8 -/

/-- A Unicode scalar value: what Go's decoding can produce (never a
surrogate, never above U+10FFFF). -/
def ValidCodePoint (c : Nat) : Prop :=
  c < 0x110000 ∧ ¬(0xD800 ≤ c ∧ c < 0xE000)

/-- Every code point produced by one decoding step is a scalar value. -/
theorem utf8DecodeStep_fst_valid (b : Nat) (rest : List Nat) :
    ValidCodePoint (utf8DecodeStep b rest).1 := by
  unfold utf8DecodeStep ValidCodePoint
  repeat' split
  all_goals constructor
  all_goals omega

/-- Every code point produced by the decoding loop is a scalar value. -/
theorem utf8DecodeLoop_valid :
    ∀ (fuel : Nat) (l : List Nat), ∀ c ∈ utf8DecodeLoop fuel l, ValidCodePoint c := by
  intro fuel
  induction fuel with
  | zero =>
    intro l c hc
    exact absurd hc (by simp [utf8DecodeLoop])
  | succ f ih =>
    intro l c hc
    match l with
    | [] => exact absurd hc (by simp [utf8DecodeLoop])
    | b :: rest =>
      rw [utf8DecodeLoop] at hc
      rcases List.mem_cons.mp hc with h | h
      · exact h ▸ utf8DecodeStep_fst_valid b rest
      · exact ih _ c h

/-- Every code point produced by `utf8Decode` is a scalar value. -/
theorem utf8Decode_valid (l : List Nat) : ∀ c ∈ utf8Decode l, ValidCodePoint c :=
  utf8DecodeLoop_valid l.length l

/-- Decoding step at an ASCII byte. -/
theorem utf8DecodeStep_ascii (b : Nat) (h : b < 0x80) (rest : List Nat) :
    utf8DecodeStep b rest = (b, 0) := by
  unfold utf8DecodeStep
  rw [if_pos h]

/-- Decoding step at the two-byte encoding of a scalar value. -/
theorem utf8DecodeStep_two (c : Nat) (h1 : 0x80 <= c) (h2 : c < 0x800)
    (bs : List Nat) :
    utf8DecodeStep (0xC0 + c / 0x40) ((0x80 + c % 0x40) :: bs) = (c, 1) := by
  have hb0 : ¬(0xC0 + c / 0x40 < 0x80) := by omega
  have hb1 : ¬(0xC0 + c / 0x40 < 0xC2) := by omega
  have hb2 : 0xC0 + c / 0x40 < 0xE0 := by omega
  unfold utf8DecodeStep
  rw [if_neg hb0, if_neg hb1, if_pos hb2]
  show (if 0x80 ≤ 0x80 + c % 0x40 ∧ 0x80 + c % 0x40 ≤ 0xBF then
      ((0xC0 + c / 0x40 - 0xC0) * 0x40 + (0x80 + c % 0x40 - 0x80), 1)
    else (0xFFFD, 0)) = (c, 1)
  rw [if_pos (by omega)]
  simp only [Prod.mk.injEq]
  exact ⟨by omega, trivial⟩

/-- Decoding step at the three-byte encoding of a scalar value. -/
theorem utf8DecodeStep_three (c : Nat) (h1 : 0x800 <= c) (h2 : c < 0x10000)
    (h3 : ¬(0xD800 <= c ∧ c < 0xE000)) (bs : List Nat) :
    utf8DecodeStep (0xE0 + c / 0x1000)
      ((0x80 + (c / 0x40) % 0x40) :: (0x80 + c % 0x40) :: bs) = (c, 2) := by
  have hb0 : ¬(0xE0 + c / 0x1000 < 0x80) := by omega
  have hb1 : ¬(0xE0 + c / 0x1000 < 0xC2) := by omega
  have hb2 : ¬(0xE0 + c / 0x1000 < 0xE0) := by omega
  have hb3 : 0xE0 + c / 0x1000 < 0xF0 := by omega
  have hdd : c / 0x40 / 0x40 = c / 0x1000 := by
    rw [Nat.div_div_eq_div_mul]
  unfold utf8DecodeStep
  rw [if_neg hb0, if_neg hb1, if_neg hb2, if_pos hb3]
  show (if ((0xE0 + c / 0x1000 = 0xE0 ∧ 0xA0 ≤ 0x80 + (c / 0x40) % 0x40 ∧ 0x80 + (c / 0x40) % 0x40 ≤ 0xBF) ∨
        (0xE0 + c / 0x1000 = 0xED ∧ 0x80 ≤ 0x80 + (c / 0x40) % 0x40 ∧ 0x80 + (c / 0x40) % 0x40 ≤ 0x9F) ∨
        (0xE0 + c / 0x1000 ≠ 0xE0 ∧ 0xE0 + c / 0x1000 ≠ 0xED ∧ 0x80 ≤ 0x80 + (c / 0x40) % 0x40 ∧ 0x80 + (c / 0x40) % 0x40 ≤ 0xBF)) ∧
        (0x80 ≤ 0x80 + c % 0x40 ∧ 0x80 + c % 0x40 ≤ 0xBF) then
      ((0xE0 + c / 0x1000 - 0xE0) * 0x1000 + (0x80 + (c / 0x40) % 0x40 - 0x80) * 0x40 + (0x80 + c % 0x40 - 0x80), 2)
    else (0xFFFD, 0)) = (c, 2)
  rw [if_pos (by omega)]
  simp only [Prod.mk.injEq]
  exact ⟨by omega, trivial⟩

/-- Decoding step at the four-byte encoding of a scalar value. -/
theorem utf8DecodeStep_four (c : Nat) (h1 : 0x10000 <= c) (h2 : c < 0x110000)
    (bs : List Nat) :
    utf8DecodeStep (0xF0 + c / 0x40000)
      ((0x80 + (c / 0x1000) % 0x40) :: (0x80 + (c / 0x40) % 0x40) ::
        (0x80 + c % 0x40) :: bs) = (c, 3) := by
  have hb0 : ¬(0xF0 + c / 0x40000 < 0x80) := by omega
  have hb1 : ¬(0xF0 + c / 0x40000 < 0xC2) := by omega
  have hb2 : ¬(0xF0 + c / 0x40000 < 0xE0) := by omega
  have hb3 : ¬(0xF0 + c / 0x40000 < 0xF0) := by omega
  have hb4 : 0xF0 + c / 0x40000 < 0xF5 := by omega
  have hdd1 : c / 0x40 / 0x40 = c / 0x1000 := by rw [Nat.div_div_eq_div_mul]
  have hdd2 : c / 0x1000 / 0x40 = c / 0x40000 := by rw [Nat.div_div_eq_div_mul]
  unfold utf8DecodeStep
  rw [if_neg hb0, if_neg hb1, if_neg hb2, if_neg hb3, if_pos hb4]
  show (if ((0xF0 + c / 0x40000 = 0xF0 ∧ 0x90 ≤ 0x80 + (c / 0x1000) % 0x40 ∧ 0x80 + (c / 0x1000) % 0x40 ≤ 0xBF) ∨
        (0xF0 + c / 0x40000 = 0xF4 ∧ 0x80 ≤ 0x80 + (c / 0x1000) % 0x40 ∧ 0x80 + (c / 0x1000) % 0x40 ≤ 0x8F) ∨
        (0xF0 + c / 0x40000 ≠ 0xF0 ∧ 0xF0 + c / 0x40000 ≠ 0xF4 ∧ 0x80 ≤ 0x80 + (c / 0x1000) % 0x40 ∧ 0x80 + (c / 0x1000) % 0x40 ≤ 0xBF)) ∧
        (0x80 ≤ 0x80 + (c / 0x40) % 0x40 ∧ 0x80 + (c / 0x40) % 0x40 ≤ 0xBF) ∧
        (0x80 ≤ 0x80 + c % 0x40 ∧ 0x80 + c % 0x40 ≤ 0xBF) then
      ((0xF0 + c / 0x40000 - 0xF0) * 0x40000 + (0x80 + (c / 0x1000) % 0x40 - 0x80) * 0x1000 + (0x80 + (c / 0x40) % 0x40 - 0x80) * 0x40 + (0x80 + c % 0x40 - 0x80), 3)
    else (0xFFFD, 0)) = (c, 3)
  rw [if_pos (by omega)]
  simp only [Prod.mk.injEq]
  exact ⟨by omega, trivial⟩

/-- The decoding loop ignores fuel beyond the list length. -/
theorem utf8DecodeLoop_fuel :
    ∀ (f1 f2 : Nat) (l : List Nat), l.length ≤ f1 → l.length ≤ f2 →
      utf8DecodeLoop f1 l = utf8DecodeLoop f2 l := by
  intro f1
  induction f1 with
  | zero =>
    intro f2 l h1 _
    have hl : l = [] := List.eq_nil_of_length_eq_zero (Nat.le_zero.mp h1)
    subst hl
    cases f2 <;> rfl
  | succ f ih =>
    intro f2 l h1 h2
    match l with
    | [] => cases f2 <;> rfl
    | b :: rest =>
      match f2 with
      | f2' + 1 =>
        rw [utf8DecodeLoop, utf8DecodeLoop]
        have hd : (rest.drop (utf8DecodeStep b rest).2).length ≤ rest.length := by
          simp
        have hr1 : rest.length ≤ f := by simpa using h1
        have hr2 : rest.length ≤ f2' := by simpa using h2
        rw [ih f2' _ (le_trans hd hr1) (le_trans hd hr2)]

/-- Decoding after prepending the encoding of one scalar value. -/
theorem utf8Decode_encodeChar_cons (c : Nat) (h : ValidCodePoint c)
    (tail : List Nat) :
    utf8Decode (utf8EncodeChar c ++ tail) = c :: utf8Decode tail := by
  obtain ⟨hlt, hsurr⟩ := h
  unfold utf8Decode utf8EncodeChar
  split_ifs with hr1 hr2 hr3
  · -- one byte
    simp only [List.cons_append, List.nil_append, List.length_cons]
    rw [utf8DecodeLoop, utf8DecodeStep_ascii c hr1 tail]
    simp
  · -- two bytes
    simp only [List.cons_append, List.nil_append, List.length_cons]
    rw [utf8DecodeLoop, utf8DecodeStep_two c (by omega) hr2 tail]
    simp only [List.drop_succ_cons, List.drop_zero]
    rw [utf8DecodeLoop_fuel (tail.length + 1) tail.length tail (by omega) le_rfl]
  · -- three bytes
    simp only [List.cons_append, List.nil_append, List.length_cons]
    rw [utf8DecodeLoop, utf8DecodeStep_three c (by omega) hr3 hsurr tail]
    simp only [List.drop_succ_cons, List.drop_zero]
    rw [utf8DecodeLoop_fuel (tail.length + 2) tail.length tail (by omega) le_rfl]
  · -- four bytes
    simp only [List.cons_append, List.nil_append, List.length_cons]
    rw [utf8DecodeLoop, utf8DecodeStep_four c (by omega) hlt tail]
    simp only [List.drop_succ_cons, List.drop_zero]
    rw [utf8DecodeLoop_fuel (tail.length + 3) tail.length tail (by omega) le_rfl]

/-- Decoding inverts encoding on lists of scalar values. -/
theorem utf8Decode_utf8Encode (l : List Nat)
    (h : ∀ c ∈ l, ValidCodePoint c) : utf8Decode (utf8Encode l) = l := by
  induction l with
  | nil => rfl
  | cons c rest ih =>
    have henc : utf8Encode (c :: rest) = utf8EncodeChar c ++ utf8Encode rest := by
      simp [utf8Encode]
    rw [henc, utf8Decode_encodeChar_cons c (h c (List.mem_cons_self c rest)),
      ih (fun d hd => h d (List.mem_cons_of_mem c hd))]

/-- A byte below `0x80` in the encoding of one scalar value is that
value itself: all bytes of a multi-byte encoding are at least `0x80`. -/
theorem utf8EncodeChar_mem_lt (c x : Nat) (hx : x ∈ utf8EncodeChar c)
    (hlt : x < 0x80) : x = c := by
  unfold utf8EncodeChar at hx
  split_ifs at hx <;> simp at hx <;> omega

/-- A byte below `0x80` in an encoded list comes from that very code
point in the list. -/
theorem mem_utf8Encode_lt (l : List Nat) (x : Nat) (hx : x ∈ utf8Encode l)
    (hlt : x < 0x80) : x ∈ l := by
  simp only [utf8Encode, List.mem_flatten, List.mem_map] at hx
  obtain ⟨bs, ⟨cc, hcc, rfl⟩, hxbs⟩ := hx
  exact (utf8EncodeChar_mem_lt cc x hxbs hlt) ▸ hcc

/-- Decoding is the identity on ASCII byte lists. -/
theorem utf8Decode_ascii (l : List Nat) (h : ∀ b ∈ l, b < 0x80) :
    utf8Decode l = l := by
  unfold utf8Decode
  induction l with
  | nil => rfl
  | cons b rest ih =>
    rw [List.length_cons, utf8DecodeLoop,
      utf8DecodeStep_ascii b (h b (List.mem_cons_self b rest)) rest]
    simp only [List.drop_zero]
    rw [ih (fun d hd => h d (List.mem_cons_of_mem b hd))]

/-- Encoding is the identity on ASCII code-point lists. -/
theorem utf8Encode_ascii (l : List Nat) (h : ∀ c ∈ l, c < 0x80) :
    utf8Encode l = l := by
  induction l with
  | nil => rfl
  | cons c rest ih =>
    have hc : utf8EncodeChar c = [c] := by
      unfold utf8EncodeChar
      rw [if_pos (h c (List.mem_cons_self c rest))]
    simp [utf8Encode] at ih ⊢
    rw [hc, ih (fun d hd => h d (List.mem_cons_of_mem c hd))]
    rfl

/-- Printable ASCII is printable. -/
theorem isPrint_ascii (b : Nat) (h1 : 0x20 ≤ b) (h2 : b ≤ 0x7E) :
    isPrint b = true := by
  unfold isPrint
  rw [if_pos (by omega)]
  simp only [decide_eq_true_eq]
  omega

/-! ## Claim theorems: the TTY sanitizer -/

/-- Claim C5: the TTY sanitizer is idempotent — for every byte chunk
`x`, `sanitize(sanitize(x)) = sanitize(x)`. Sanitized output contains
no ESC or CSI rune (they are not printable), so a second ANSI strip is
the identity, and a second printability filter keeps everything the
first one kept. -/
theorem sanitizeTTYData_idempotent (x : List Nat) :
    sanitizeTTYData (sanitizeTTYData x) = sanitizeTTYData x := by
  unfold sanitizeTTYData
  have hvalid : ∀ c ∈ filterNonPrintable (stripANSI (utf8Decode x)),
      ValidCodePoint c :=
    fun c hc =>
      utf8Decode_valid x c (stripANSI_subset _ c (filterNonPrintable_mem _ c hc).2)
  rw [utf8Decode_utf8Encode _ hvalid]
  have hnointro : ∀ c ∈ filterNonPrintable (stripANSI (utf8Decode x)),
      c ≠ 0x1B ∧ c ≠ 0x9B := by
    intro c hc
    have hkeep := (filterNonPrintable_mem _ c hc).1
    constructor <;> rintro rfl <;> revert hkeep <;> decide
  rw [stripANSI_of_no_intro _ hnointro, filterNonPrintable_idem]

/-- Claim C7: on input consisting only of printable ASCII characters,
newlines and tabs, the TTY sanitizer is the identity: such bytes decode
to themselves, contain no escape introducer, and all pass the
printability filter. -/
theorem sanitizeTTYData_identity_on_plain (x : List Nat)
    (h : ∀ b ∈ x, (0x20 ≤ b ∧ b ≤ 0x7E) ∨ b = 0x0A ∨ b = 0x09) :
    sanitizeTTYData x = x := by
  have hascii : ∀ b ∈ x, b < 0x80 := by
    intro b hb
    rcases h b hb with h1 | h1 | h1 <;> omega
  unfold sanitizeTTYData
  rw [utf8Decode_ascii x hascii]
  rw [stripANSI_of_no_intro x (by
    intro c hc
    rcases h c hc with h1 | h1 | h1 <;> constructor <;> omega)]
  rw [filterNonPrintable_of_all x (by
    intro c hc
    rcases h c hc with h1 | h1 | h1
    · exact Or.inr (Or.inr (isPrint_ascii c h1.1 h1.2))
    · exact Or.inl h1
    · exact Or.inr (Or.inl h1))]
  exact utf8Encode_ascii x hascii

/-- Witness for C7: the concrete chunk `"Hi\tok\n"` satisfies the
printable-ASCII/newline/tab hypothesis and is unchanged. -/
theorem sanitizeTTYData_identity_on_plain_witness :
    (∀ b ∈ [0x48, 0x69, 0x09, 0x6F, 0x6B, 0x0A],
      (0x20 ≤ b ∧ b ≤ 0x7E) ∨ b = 0x0A ∨ b = 0x09) ∧
    sanitizeTTYData [0x48, 0x69, 0x09, 0x6F, 0x6B, 0x0A] =
      [0x48, 0x69, 0x09, 0x6F, 0x6B, 0x0A] :=
  ⟨by decide, sanitizeTTYData_identity_on_plain _ (by decide)⟩

/-- Claim C9: for every input byte sequence — valid UTF-8 or not —
every rune of `sanitizeTTYData`'s output is printable, a newline or a
tab; in particular the carriage-return byte `0x0D` and the escape byte
`0x1B` never occur among the output bytes, while an invalid input byte
surfaces as the (printable) replacement character U+FFFD, as the
concrete input `[0xFF]` shows. -/
theorem sanitizeTTYData_output_printable (data : List Nat) :
    (∀ c ∈ utf8Decode (sanitizeTTYData data),
      isPrint c = true ∨ c = 0x0A ∨ c = 0x09) ∧
    0x0D ∉ sanitizeTTYData data ∧
    0x1B ∉ sanitizeTTYData data ∧
    isPrint 0xFFFD = true ∧
    sanitizeTTYData [0xFF] = [0xEF, 0xBF, 0xBD] := by
  have hvalid : ∀ c ∈ filterNonPrintable (stripANSI (utf8Decode data)),
      ValidCodePoint c :=
    fun c hc =>
      utf8Decode_valid data c (stripANSI_subset _ c (filterNonPrintable_mem _ c hc).2)
  refine ⟨?_, ?_, ?_, by decide, by decide⟩
  · intro c hc
    unfold sanitizeTTYData at hc
    rw [utf8Decode_utf8Encode _ hvalid] at hc
    have hkeep := (filterNonPrintable_mem _ c hc).1
    tauto
  · intro hmem
    unfold sanitizeTTYData at hmem
    have h13 := mem_utf8Encode_lt _ _ hmem (by omega)
    have hkeep := (filterNonPrintable_mem _ _ h13).1
    revert hkeep
    decide
  · intro hmem
    unfold sanitizeTTYData at hmem
    have h27 := mem_utf8Encode_lt _ _ hmem (by omega)
    have hkeep := (filterNonPrintable_mem _ _ h27).1
    revert hkeep
    decide

end Butterfish
